import Mathlib

set_option maxRecDepth 100000

/-!
# Verification of `nest/experiment/parser/netperf.py`

A shallow embedding of the netperf test driver of NeST
(`nest/experiment/parser/netperf.py`): the command builder and run
orchestrator `run_netperf`, the output parser `parse_stats`, and the
locked merge into the shared result store.

Modelling conventions:
* Python strings are `List Char` (named `Str` below); a Lean string
  literal `s` is turned into one by `str s`.
* Python dicts are insertion-ordered association lists; assigning to an
  existing key updates it in place (keeping its position), assigning a
  fresh key appends it (`dictInsert`), exactly as Python 3.7+ dicts do.
* The two regular expressions used by `parse_stats`
  (`NETPERF_INTERIM_RESULT\[\d+]=\d+\.\d+` and
  `NETPERF_ENDING\[\d+]=\d+\.\d+`) are embedded as a maximal-munch
  matcher: for these patterns greedy `\d+` with backtracking coincides
  with maximal munch because the character required after each `\d+`
  (`]`, `.`, or end of pattern) is never a digit.  `re.findall` scans
  left to right, non-overlapping, resuming after each match; `re.sub`
  with an empty replacement deletes every such match.
* Python floats produced by `float()` on the matched decimal literals
  are modelled exactly as canonical decimals `Dec` (a mantissa and a
  power-of-ten exponent, trailing zeros stripped), so that two decimal
  literals denote the same key iff they denote the same number.
* The code raising an exception (the `IndexError` in the pairing loop
  of `parse_stats`, the `AttributeError` when no test-option set was
  selected in `run_netperf`) is modelled as `Option.none`.
-/

namespace NestNetperf

/-- Python strings, modelled as lists of characters. -/
abbrev Str : Type := List Char

/-- Embed a Lean string literal as a `Str`. -/
def str (s : String) : Str := s.data

/-! ## Exact decimal numbers (model of the Python floats in play)

`parse_stats` applies `float()` only to text of the form
`<digits>.<digits>`; such values are represented exactly as
`num / 10 ^ exp` in canonical form (`num` not divisible by 10 unless
`exp = 0`), so that structural equality of `Dec` coincides with
numeric equality of the parsed floats. -/

/-- A nonnegative decimal number `num / 10 ^ exp` in canonical form. -/
structure Dec where
  num : Nat
  exp : Nat
deriving DecidableEq, Repr

/-- Strip factors of ten from `num` while the exponent is positive. -/
def stripZeros : Nat → Nat → Nat × Nat
  | num, 0 => (num, 0)
  | num, e + 1 => if num % 10 = 0 then stripZeros (num / 10) e else (num, e + 1)

/-- The canonical decimal with integer part `intPart` and `k` fraction
digits of value `frac`. -/
def mkDec (intPart frac k : Nat) : Dec :=
  let p := stripZeros (intPart * 10 ^ k + frac) k
  ⟨p.1, p.2⟩

/-- Numeric value of a decimal digit string (most significant first). -/
def digitsToNat (ds : Str) : Nat :=
  ds.foldl (fun acc c => 10 * acc + (c.toNat - ('0').toNat)) 0

/-- Longest digit prefix of a string, together with the rest
(the maximal munch taken by a greedy `\d+`). -/
def takeDigits : Str → Str × Str
  | [] => ([], [])
  | c :: cs =>
    if c.isDigit then
      let p := takeDigits cs
      (c :: p.1, p.2)
    else ([], c :: cs)

/-- Model of Python `float()` on the strings this parser feeds it:
`<digits>` or `<digits>.<digits>`. -/
def pyFloat (cs : Str) : Dec :=
  let p := takeDigits cs
  match p.2 with
  | '.' :: rest =>
    let q := takeDigits rest
    mkDec (digitsToNat p.1) (digitsToNat q.1) q.1.length
  | _ => mkDec (digitsToNat p.1) 0 0

/-! ## The two regex families of `parse_stats`

Both full patterns have the shape `<literal>[\d+]=\d+\.\d+` where
`<literal>[` is `NETPERF_INTERIM_RESULT[` or `NETPERF_ENDING[`; both
extraction patterns have the shape `<literal>[\d+]=`. -/

/-- Match a literal prefix, returning the rest of the input. -/
def stripLit : Str → Str → Option Str
  | [], cs => some cs
  | _ :: _, [] => none
  | l :: ls, c :: cs => if c = l then stripLit ls cs else none

/-- Try to match `<lit>\d+]=\d+\.\d+` at the start of `cs`; on success
return the matched text and the remaining input.  (`lit` already ends
in the escaped `[` of the pattern.) -/
def matchMarker (lit cs : Str) : Option (Str × Str) :=
  match stripLit lit cs with
  | none => none
  | some r1 =>
    let p1 := takeDigits r1
    if p1.1 = [] then none else
    match stripLit (str "]=") p1.2 with
    | none => none
    | some r2 =>
      let p2 := takeDigits r2
      if p2.1 = [] then none else
      match p2.2 with
      | '.' :: r3 =>
        let p3 := takeDigits r3
        if p3.1 = [] then none else
        some (lit ++ p1.1 ++ str "]=" ++ p2.1 ++ str "." ++ p3.1, p3.2)
      | _ => none

/-- `re.findall` for the marker pattern: scan left to right, trying the
pattern at each position, resuming after the end of each match.  The
fuel argument is the length of the input; every step consumes at least
one character, so it never runs out (`findAllAux_fuel`). -/
def findAllAux (lit : Str) : Nat → Str → List Str
  | 0, _ => []
  | _ + 1, [] => []
  | fuel + 1, c :: cs =>
    match matchMarker lit (c :: cs) with
    | some (m, rest) => m :: findAllAux lit fuel rest
    | none => findAllAux lit fuel cs

/-- `re.findall(lit ++ "\d+]=\d+\.\d+", cs)`. -/
def findAll (lit cs : Str) : List Str := findAllAux lit cs.length cs

/-- Try to match the extraction pattern `<lit>\d+]=` at the start of
`cs`; on success return the input remaining after the match. -/
def matchExtract (lit cs : Str) : Option Str :=
  match stripLit lit cs with
  | none => none
  | some r1 =>
    let p1 := takeDigits r1
    if p1.1 = [] then none else
    stripLit (str "]=") p1.2

/-- `re.sub` with empty replacement for the extraction pattern: delete
every non-overlapping match, scanning left to right. -/
def subAllAux (lit : Str) : Nat → Str → Str
  | 0, cs => cs
  | _ + 1, [] => []
  | fuel + 1, c :: cs =>
    match matchExtract lit (c :: cs) with
    | some rest => subAllAux lit fuel rest
    | none => c :: subAllAux lit fuel cs

/-- `re.sub(lit ++ "\d+]=", "", cs)`. -/
def subAll (lit cs : Str) : Str := subAllAux lit cs.length cs

/-- The text a whole-marker match can return: the literal prefix, a
nonempty run of digits, `]=`, then a nonempty run of digits, a dot and
a nonempty run of digits — i.e. only digits-dot-digits payloads. -/
def markerShape (lit m : Str) : Prop :=
  ∃ d1 d2 d3 : Str, d1 ≠ [] ∧ d2 ≠ [] ∧ d3 ≠ [] ∧
    (∀ c ∈ d1, c.isDigit = true) ∧ (∀ c ∈ d2, c.isDigit = true) ∧
    (∀ c ∈ d3, c.isDigit = true) ∧
    m = lit ++ d1 ++ str "]=" ++ d2 ++ str "." ++ d3

/-! ## Python dicts as insertion-ordered association lists -/

/-- Python dict assignment `d[k] = v`: overwrite in place if the key is
present, else append. -/
def dictInsert {α β : Type} [DecidableEq α] (d : List (α × β)) (k : α) (v : β) :
    List (α × β) :=
  if d.any (fun p => decide (p.1 = k)) then
    d.map (fun p => if p.1 = k then (k, v) else p)
  else d ++ [(k, v)]

/-- Python dict lookup `d[k]` (first matching key). -/
def dictLookup {α β : Type} [DecidableEq α] (d : List (α × β)) (k : α) : Option β :=
  match d with
  | [] => none
  | p :: rest => if p.1 = k then some p.2 else dictLookup rest k

/-- Python `dict.values()`, in insertion order. -/
def dictValues {α β : Type} (d : List (α × β)) : List β := d.map Prod.snd

/-- Insert every pair of `ps` into `d` in order (`d[k] = v` repeatedly). -/
def dictInsertAll {α β : Type} [DecidableEq α] (d : List (α × β))
    (ps : List (α × β)) : List (α × β) :=
  ps.foldl (fun acc p => dictInsert acc p.1 p.2) d

/-! ## `parse_stats` -/

/-- The throughput marker prefix `NETPERF_INTERIM_RESULT[`. -/
def throughputLit : Str := str "NETPERF_INTERIM_RESULT["

/-- The timestamp marker prefix `NETPERF_ENDING[`. -/
def timestampLit : Str := str "NETPERF_ENDING["

/-- `throughputs` of `parse_stats`: find all throughput markers, strip
the prefix from each with `re.sub`, convert to float. -/
def throughput_values (raw : Str) : List Dec :=
  (findAll throughputLit raw).map (fun stat => pyFloat (subAll throughputLit stat))

/-- `timestamps` of `parse_stats`: find all timestamp markers, strip
the prefix from each with `re.sub`, convert to float. -/
def timestamp_values (raw : Str) : List Dec :=
  (findAll timestampLit raw).map (fun stat => pyFloat (subAll timestampLit stat))

/-- The pairing loop of `parse_stats`:
`for i in range(len(throughputs)): stats_dict[timestamps[i]] = throughputs[i]`.
Walking both lists in step is the same loop; running out of timestamps
while throughputs remain is the `IndexError`, modelled as `none`. -/
def statsLoop : List Dec → List Dec → List (Dec × Dec) → Option (List (Dec × Dec))
  | _, [], acc => some acc
  | [], _ :: _, _ => none
  | t :: ts, v :: vs, acc => statsLoop ts vs (dictInsert acc t v)

/-- `stats_dict` as built by `parse_stats` from the raw output
(`none` = the pairing loop raised `IndexError`). -/
def stats_dict (raw : Str) : Option (List (Dec × Dec)) :=
  statsLoop (timestamp_values raw) (throughput_values raw) []

/-! ## The shared result store

`NetperfResults.add_result` lives in `nest/experiment/results.py`,
which is not part of this source tree. -/

/-- The shared result store: Result Series keyed by namespace name. -/
abbrev Store : Type := List (Str × List (Dec × Dec))

/-- Modelled from the spec: `NetperfResults.add_result` (defined in the
absent module `nest/experiment/results.py`) appends/overwrites entries
in the shared Result Series for the given namespace with the given
timestamp-to-value samples, the namespace's series being created lazily
on first write. -/
def add_result (store : Store) (ns : Str) (samples : List (Dec × Dec)) : Store :=
  dictInsert store ns (dictInsertAll ((dictLookup store ns).getD []) samples)

/-! ## The locked merge step of `parse_stats`

The tail of `parse_stats` is `lock.acquire()`,
`NetperfResults.add_result(ns_name, stats_dict)`, `lock.release()`.
It is embedded as the sequence of events it performs, so that the lock
discipline is visible. -/

/-- An event of the merge step: taking the shared lock, writing the
parsed samples of a namespace into the store, releasing the lock. -/
inductive MergeEvent : Type where
  | acquire : MergeEvent
  | update : Str → List (Dec × Dec) → MergeEvent
  | release : MergeEvent
deriving DecidableEq, Repr

/-- The event sequence of one merge: acquire, update, release. -/
def mergeTrace (ns : Str) (samples : List (Dec × Dec)) : List MergeEvent :=
  [MergeEvent.acquire, MergeEvent.update ns samples, MergeEvent.release]

/-- The events performed by the tail of `parse_stats`
(`none` = `parse_stats` raised before reaching the merge). -/
def parse_stats_events (raw ns : Str) : Option (List MergeEvent) :=
  match stats_dict raw with
  | none => none
  | some d => some (mergeTrace ns d)

/-- Effect of one merge event on the store. -/
def applyEvent (store : Store) : MergeEvent → Store
  | MergeEvent.update ns samples => add_result store ns samples
  | _ => store

/-- Effect of an event sequence on the store. -/
def applyTrace (store : Store) (t : List MergeEvent) : Store :=
  t.foldl applyEvent store

/-- A schedule is feasible for the single shared lock iff no acquire
happens while the lock is held and no release while it is free
(`held` = lock state at the start of the sequence). -/
def lockRespecting : Bool → List MergeEvent → Bool
  | _, [] => true
  | held, MergeEvent.acquire :: t => !held && lockRespecting true t
  | held, MergeEvent.release :: t => held && lockRespecting false t
  | held, MergeEvent.update _ _ :: t => lockRespecting held t

/-- `Interleave xs ys t`: `t` is an interleaving of the two event
sequences `xs` and `ys` (each kept in its own order) — the possible
schedules of two concurrent units. -/
inductive Interleave : List MergeEvent → List MergeEvent → List MergeEvent → Prop where
  | nil : Interleave [] [] []
  | left {x : MergeEvent} {xs ys t : List MergeEvent} :
      Interleave xs ys t → Interleave (x :: xs) ys (x :: t)
  | right {y : MergeEvent} {xs ys t : List MergeEvent} :
      Interleave xs ys t → Interleave xs (y :: ys) (y :: t)

/-! ## `run_netperf` -/

/-- Decimal rendering of a natural number (Python `'{}'.format(n)`). -/
def natToStr (n : Nat) : Str := (Nat.repr n).data

/-- `RUNTIME = 10`. -/
def RUNTIME : Nat := 10

/-- `DEFAULT_NETPERF_OPTIONS` (the `intervel` entry renders the float
`INTERVAL = 0.2` as `0.2`). -/
def DEFAULT_NETPERF_OPTIONS : List (Str × Str) :=
  [(str "banner", str "-P 0"),
   (str "ipv4", str "-4"),
   (str "testname", str "-t TCP_STREAM"),
   (str "fill_file", str "-F /dev/urandom"),
   (str "testlen", str "-l " ++ natToStr RUNTIME),
   (str "intervel", str "-D -0.2")]

/-- `NETPERF_TCP_OPTIONS`. -/
def NETPERF_TCP_OPTIONS : List (Str × Str) :=
  [(str "cong_algo", str "-K cubic"),
   (str "stats", str "-k THROUGHPUT")]

/-- `NETPERF_UDP_OPTIONS`. -/
def NETPERF_UDP_OPTIONS : List (Str × Str) :=
  [(str "routing", str "-R 1"),
   (str "stats", str "-k THROUGHPUT")]

/-- Python `' '.join`. -/
def joinSpace : List Str → Str
  | [] => []
  | [s] => s
  | s :: rest => s ++ str " " ++ joinSpace rest

/-- The keyword arguments `run_netperf` reads: `kwargs['testname']` and
`kwargs['cong_algo']`. -/
structure NetperfKwargs : Type where
  testname : Str
  cong_algo : Str

/-- The command string built by `run_netperf`: copy the defaults,
override `testlen` and `testname`, select the test-option set by test
name (for TCP additionally assigning `'-K <cong_algo>'` to the key
`'cong_alg'`), then render
`ip netns exec <ns> netperf <options> -H <dest> -- <test options>`.
`none` models the `AttributeError` from `test_options.values()` when no
test-option set was selected. -/
def run_netperf_cmd (ns_name destination_ip : Str) (run_time : Nat)
    (kw : NetperfKwargs) : Option Str :=
  let options :=
    dictInsert
      (dictInsert DEFAULT_NETPERF_OPTIONS (str "testlen") (str "-l " ++ natToStr run_time))
      (str "testname") (str "-t " ++ kw.testname)
  let test_options : Option (List (Str × Str)) :=
    if dictLookup options (str "testname") = some (str "-t TCP_STREAM") then
      some (dictInsert NETPERF_TCP_OPTIONS (str "cong_alg") (str "-K " ++ kw.cong_algo))
    else if dictLookup options (str "testname") = some (str "-t UDP_STREAM") then
      some NETPERF_UDP_OPTIONS
    else none
  match test_options with
  | none => none
  | some tops =>
    some (str "ip netns exec " ++ ns_name ++ str " netperf "
      ++ joinSpace (dictValues options)
      ++ str " -H " ++ destination_ip
      ++ str " -- " ++ joinSpace (dictValues tops))

/-- An action of the `run_netperf` orchestration. -/
inductive RunEvent : Type where
  | sleep : Nat → RunEvent
  | exec : Str → Bool → RunEvent
  | parseMerge : Str → RunEvent
deriving DecidableEq, Repr

/-- The action sequence of `run_netperf`: build the command, sleep for
`start_time` if it is nonzero, run the command blocking, then parse and
merge the captured output.  `none` models the `AttributeError` raised
while building the command. -/
def run_netperf_events (ns_name destination_ip : Str) (start_time run_time : Nat)
    (kw : NetperfKwargs) : Option (List RunEvent) :=
  match run_netperf_cmd ns_name destination_ip run_time kw with
  | none => none
  | some cmd =>
    some ((if start_time ≠ 0 then [RunEvent.sleep start_time] else [])
      ++ [RunEvent.exec cmd true, RunEvent.parseMerge ns_name])

/-- Number of non-overlapping occurrences of `pat` in `cs`. -/
def countSubAux (pat : Str) : Nat → Str → Nat
  | 0, _ => 0
  | _ + 1, [] => 0
  | fuel + 1, c :: cs =>
    match stripLit pat (c :: cs) with
    | some rest => 1 + countSubAux pat fuel rest
    | none => countSubAux pat fuel cs

/-- Number of non-overlapping occurrences of `pat` in `cs`. -/
def countSub (pat cs : Str) : Nat := countSubAux pat cs.length cs

/-- The full effect of `parse_stats` on the shared store: build the
stats dict and merge it for the namespace (`none` = `parse_stats`
raised before reaching the merge). -/
def parse_stats_apply (raw ns : Str) (store : Store) : Option Store :=
  match stats_dict raw with
  | none => none
  | some d => some (add_result store ns d)

/-! ## Dictionary lemmas -/

theorem dictLookup_map_other {α β : Type} [DecidableEq α]
    (d : List (α × β)) (k k' : α) (v : β) (hne : k' ≠ k) :
    dictLookup (d.map (fun p => if p.1 = k then (k, v) else p)) k' = dictLookup d k' := by
  induction d with
  | nil => rfl
  | cons p rest ih =>
    by_cases hp : p.1 = k
    · have hk : ¬ k = k' := fun h => hne h.symm
      simp [dictLookup, hp, hk, ih, hne.symm]
    · simp [dictLookup, hp, ih]

theorem dictLookup_append_single_other {α β : Type} [DecidableEq α]
    (d : List (α × β)) (k k' : α) (v : β) (hne : k' ≠ k) :
    dictLookup (d ++ [(k, v)]) k' = dictLookup d k' := by
  induction d with
  | nil =>
    have hk : ¬ k = k' := fun h => hne h.symm
    simp [dictLookup, hk]
  | cons p rest ih => by_cases hp : p.1 = k' <;> simp [dictLookup, hp, ih]

/-- Looking up the key just assigned yields the assigned value. -/
theorem dictLookup_insert_self {α β : Type} [DecidableEq α]
    (d : List (α × β)) (k : α) (v : β) :
    dictLookup (dictInsert d k v) k = some v := by
  induction d with
  | nil => simp [dictInsert, dictLookup]
  | cons p rest ih =>
    by_cases hp : p.1 = k
    · simp [dictInsert, List.any_cons, hp, dictLookup]
    · by_cases hr : rest.any (fun q => decide (q.1 = k)) = true
      · simpa [dictInsert, List.any_cons, hp, hr, dictLookup] using ih
      · simpa [dictInsert, List.any_cons, hp, hr, dictLookup] using ih

/-- Assigning one key leaves the other keys' values unchanged. -/
theorem dictLookup_insert_other {α β : Type} [DecidableEq α]
    (d : List (α × β)) (k k' : α) (v : β) (hne : k' ≠ k) :
    dictLookup (dictInsert d k v) k' = dictLookup d k' := by
  by_cases hc : d.any (fun p => decide (p.1 = k)) = true
  · simpa [dictInsert, hc] using dictLookup_map_other d k k' v hne
  · simpa [dictInsert, hc] using dictLookup_append_single_other d k k' v hne

/-- Inserting pairs with other keys leaves a key's value unchanged. -/
theorem dictLookup_insertAll_not_mem {α β : Type} [DecidableEq α]
    (d : List (α × β)) (ps : List (α × β)) (k : α)
    (h : k ∉ ps.map Prod.fst) :
    dictLookup (dictInsertAll d ps) k = dictLookup d k := by
  induction ps generalizing d with
  | nil => rfl
  | cons p rest ih =>
    simp only [List.map_cons, List.mem_cons, not_or] at h
    have step : dictInsertAll d (p :: rest) = dictInsertAll (dictInsert d p.1 p.2) rest := rfl
    rw [step, ih _ h.2, dictLookup_insert_other _ _ _ _ h.1]

/-- After inserting a key-distinct list of pairs, every inserted key
maps to its inserted value. -/
theorem dictLookup_insertAll_mem {α β : Type} [DecidableEq α]
    (d : List (α × β)) (ps : List (α × β)) (k : α) (v : β)
    (hnd : (ps.map Prod.fst).Nodup) (hmem : (k, v) ∈ ps) :
    dictLookup (dictInsertAll d ps) k = some v := by
  induction ps generalizing d with
  | nil => cases hmem
  | cons p rest ih =>
    simp only [List.map_cons, List.nodup_cons] at hnd
    have step : dictInsertAll d (p :: rest) = dictInsertAll (dictInsert d p.1 p.2) rest := rfl
    rcases List.mem_cons.mp hmem with heq | hrest
    · subst heq
      rw [step, dictLookup_insertAll_not_mem _ _ _ hnd.1, dictLookup_insert_self]
    · exact step ▸ ih (dictInsert d p.1 p.2) hnd.2 hrest

/-! ## The pairing loop is positional pairing -/

/-- The pairing loop of `parse_stats` inserts exactly the index-wise
zip of timestamps with throughputs, and raises (`none`) exactly when
the throughput list is longer than the timestamp list. -/
theorem statsLoop_eq (ts vs : List Dec) (acc : List (Dec × Dec)) :
    statsLoop ts vs acc =
      if vs.length ≤ ts.length then some (dictInsertAll acc (ts.zip vs)) else none := by
  induction vs generalizing ts acc with
  | nil => cases ts <;> simp [statsLoop, dictInsertAll]
  | cons v vs ih =>
    cases ts with
    | nil => simp [statsLoop]
    | cons t ts =>
      have step : dictInsertAll acc ((t, v) :: ts.zip vs)
          = dictInsertAll (dictInsert acc t v) (ts.zip vs) := rfl
      simp [statsLoop, ih, List.zip_cons_cons, step, Nat.succ_le_succ_iff]

/-! ## What the marker pattern can match -/

theorem takeDigits_digits : ∀ cs : Str, ∀ c ∈ (takeDigits cs).1, c.isDigit = true := by
  intro cs
  induction cs with
  | nil => intro c h; cases h
  | cons x xs ih =>
    intro c h
    by_cases hx : x.isDigit = true
    · simp only [takeDigits, hx, if_true] at h
      rcases List.mem_cons.mp h with rfl | h'
      · exact hx
      · exact ih c h'
    · simp only [takeDigits, hx, if_false] at h
      cases h

theorem matchMarker_shape (lit cs m rest : Str)
    (h : matchMarker lit cs = some (m, rest)) : markerShape lit m := by
  unfold matchMarker at h
  split at h
  · cases h
  · rename_i r1 hs1
    dsimp only at h
    split at h
    · cases h
    · rename_i hne1
      split at h
      · cases h
      · rename_i r2 hs2
        split at h
        · cases h
        · rename_i hne2
          split at h
          · rename_i r3 hdot
            split at h
            · cases h
            · rename_i hne3
              rw [Option.some_inj, Prod.mk.injEq] at h
              exact ⟨(takeDigits r1).1, (takeDigits r2).1, (takeDigits r3).1,
                hne1, hne2, hne3, takeDigits_digits r1, takeDigits_digits r2,
                takeDigits_digits r3, h.1.symm⟩
          · cases h

theorem findAllAux_shape (lit : Str) :
    ∀ (fuel : Nat) (cs m : Str), m ∈ findAllAux lit fuel cs → markerShape lit m := by
  intro fuel
  induction fuel with
  | zero => intro cs m h; cases h
  | succ fuel ih =>
    intro cs m h
    cases cs with
    | nil => cases h
    | cons c cs' =>
      unfold findAllAux at h
      cases hm : matchMarker lit (c :: cs') with
      | some pr =>
        rw [hm] at h
        rcases List.mem_cons.mp h with rfl | h'
        · exact matchMarker_shape lit (c :: cs') pr.1 pr.2 (by rw [hm])
        · exact ih pr.2 m h'
      | none =>
        rw [hm] at h
        exact ih cs' m h

/-- Every string `re.findall` returns for a marker pattern has the
literal-digits-`]=`-digits-dot-digits shape. -/
theorem findAll_shape (lit raw m : Str) (h : m ∈ findAll lit raw) : markerShape lit m :=
  findAllAux_shape lit raw.length raw m h

/-! ## The scanning fuel is sufficient

Every successful match and every scanning step consumes at least one
character, so running the scanners with the input length as fuel never
exhausts the fuel: any larger fuel computes the same result. -/

theorem stripLit_append : ∀ l cs r : Str, stripLit l cs = some r → cs = l ++ r := by
  intro l
  induction l with
  | nil =>
    intro cs r h
    simp only [stripLit, Option.some_inj] at h
    simp [h]
  | cons x xs ih =>
    intro cs r h
    cases cs with
    | nil => cases h
    | cons c cs' =>
      unfold stripLit at h
      split at h
      · rename_i hc
        simp [hc, ih cs' r h]
      · cases h

theorem takeDigits_append : ∀ cs : Str, (takeDigits cs).1 ++ (takeDigits cs).2 = cs := by
  intro cs
  induction cs with
  | nil => rfl
  | cons c cs ih =>
    by_cases hc : c.isDigit = true
    · simp only [takeDigits, hc, if_true]
      simpa using ih
    · simp [takeDigits, hc]

theorem matchMarker_consumes (lit cs m rest : Str)
    (h : matchMarker lit cs = some (m, rest)) : rest.length < cs.length := by
  unfold matchMarker at h
  split at h
  · cases h
  · rename_i r1 hs1
    dsimp only at h
    split at h
    · cases h
    · rename_i hne1
      split at h
      · cases h
      · rename_i r2 hs2
        split at h
        · cases h
        · rename_i hne2
          split at h
          · rename_i r3 hdot
            split at h
            · cases h
            · rw [Option.some_inj, Prod.mk.injEq] at h
              have e1 := congrArg List.length (stripLit_append lit cs r1 hs1)
              have e2 := congrArg List.length (takeDigits_append r1)
              have e3 := congrArg List.length
                (stripLit_append (str "]=") (takeDigits r1).2 r2 hs2)
              have e4 := congrArg List.length (takeDigits_append r2)
              have e5 := congrArg List.length hdot
              have e6 := congrArg List.length (takeDigits_append r3)
              have e7 := congrArg List.length h.2
              have hlen2 : (str "]=").length = 2 := by decide
              simp only [List.length_append, List.length_cons] at e1 e2 e3 e4 e5 e6
              omega
          · cases h

theorem matchExtract_consumes (lit cs rest : Str)
    (h : matchExtract lit cs = some rest) : rest.length < cs.length := by
  unfold matchExtract at h
  split at h
  · cases h
  · rename_i r1 hs1
    dsimp only at h
    split at h
    · cases h
    · rename_i hne1
      have e1 := congrArg List.length (stripLit_append lit cs r1 hs1)
      have e2 := congrArg List.length (takeDigits_append r1)
      have e3 := congrArg List.length
        (stripLit_append (str "]=") (takeDigits r1).2 rest h)
      have hlen2 : (str "]=").length = 2 := by decide
      simp only [List.length_append] at e1 e2 e3
      omega

theorem findAllAux_step (lit : Str) :
    ∀ (fuel : Nat) (cs : Str), cs.length ≤ fuel →
      findAllAux lit (fuel + 1) cs = findAllAux lit fuel cs := by
  intro fuel
  induction fuel with
  | zero =>
    intro cs h
    rw [List.length_eq_zero.mp (Nat.le_zero.mp h)]
    rfl
  | succ fuel ih =>
    intro cs h
    cases cs with
    | nil => rfl
    | cons c cs' =>
      show findAllAux lit (fuel + 1 + 1) (c :: cs') = findAllAux lit (fuel + 1) (c :: cs')
      unfold findAllAux
      cases hm : matchMarker lit (c :: cs') with
      | some pr =>
        obtain ⟨m, rest⟩ := pr
        have hlt : rest.length < (c :: cs').length :=
          matchMarker_consumes lit (c :: cs') m rest (by rw [hm])
        have hle : rest.length ≤ fuel := by
          simp only [List.length_cons] at hlt h
          omega
        show m :: findAllAux lit (fuel + 1) rest = m :: findAllAux lit fuel rest
        rw [ih rest hle]
      | none =>
        have hle : cs'.length ≤ fuel := by
          simp only [List.length_cons] at h
          omega
        show findAllAux lit (fuel + 1) cs' = findAllAux lit fuel cs'
        rw [ih cs' hle]

/-- Running the marker scanner with any fuel at least the input length
gives the same matches as `findAll` itself: the fuel never runs out. -/
theorem findAllAux_fuel (lit : Str) :
    ∀ (fuel : Nat) (cs : Str), cs.length ≤ fuel →
      findAllAux lit fuel cs = findAll lit cs := by
  intro fuel
  induction fuel with
  | zero =>
    intro cs h
    rw [findAll, List.length_eq_zero.mp (Nat.le_zero.mp h)]
    rfl
  | succ fuel ih =>
    intro cs h
    rcases Nat.lt_or_ge cs.length (fuel + 1) with hlt | hge
    · have hle : cs.length ≤ fuel := Nat.lt_succ_iff.mp hlt
      rw [findAllAux_step lit fuel cs hle, ih cs hle]
    · have heq : cs.length = fuel + 1 := Nat.le_antisymm h hge
      rw [findAll, heq]

theorem subAllAux_step (lit : Str) :
    ∀ (fuel : Nat) (cs : Str), cs.length ≤ fuel →
      subAllAux lit (fuel + 1) cs = subAllAux lit fuel cs := by
  intro fuel
  induction fuel with
  | zero =>
    intro cs h
    rw [List.length_eq_zero.mp (Nat.le_zero.mp h)]
    rfl
  | succ fuel ih =>
    intro cs h
    cases cs with
    | nil => rfl
    | cons c cs' =>
      show subAllAux lit (fuel + 1 + 1) (c :: cs') = subAllAux lit (fuel + 1) (c :: cs')
      unfold subAllAux
      cases hm : matchExtract lit (c :: cs') with
      | some rest =>
        have hlt : rest.length < (c :: cs').length :=
          matchExtract_consumes lit (c :: cs') rest hm
        have hle : rest.length ≤ fuel := by
          simp only [List.length_cons] at hlt h
          omega
        show subAllAux lit (fuel + 1) rest = subAllAux lit fuel rest
        rw [ih rest hle]
      | none =>
        have hle : cs'.length ≤ fuel := by
          simp only [List.length_cons] at h
          omega
        show c :: subAllAux lit (fuel + 1) cs' = c :: subAllAux lit fuel cs'
        rw [ih cs' hle]

/-- Running the deleting scanner with any fuel at least the input
length gives the same text as `subAll` itself: the fuel never runs
out. -/
theorem subAllAux_fuel (lit : Str) :
    ∀ (fuel : Nat) (cs : Str), cs.length ≤ fuel →
      subAllAux lit fuel cs = subAll lit cs := by
  intro fuel
  induction fuel with
  | zero =>
    intro cs h
    rw [subAll, List.length_eq_zero.mp (Nat.le_zero.mp h)]
    rfl
  | succ fuel ih =>
    intro cs h
    rcases Nat.lt_or_ge cs.length (fuel + 1) with hlt | hge
    · have hle : cs.length ≤ fuel := Nat.lt_succ_iff.mp hlt
      rw [subAllAux_step lit fuel cs hle, ih cs hle]
    · have heq : cs.length = fuel + 1 := Nat.le_antisymm h hge
      rw [subAll, heq]

/-! ## Claim theorems -/

/-- C2 (counterexample): on input with 3 throughput markers and 2
timestamp markers, `parse_stats` does not produce 2 samples — it fails
with an index-out-of-range error (modelled as `none`). -/
theorem c2_three_throughputs_two_timestamps_error :
    stats_dict (str "NETPERF_INTERIM_RESULT[0]=1.5 NETPERF_INTERIM_RESULT[1]=2.5 NETPERF_INTERIM_RESULT[2]=3.5 NETPERF_ENDING[0]=1.0 NETPERF_ENDING[1]=2.0")
      = none := by decide

/-- C2 (amended): the pairing loop of `parse_stats` completes without
an index error exactly when there are at least as many timestamp
markers as throughput markers (extra timestamps are silently ignored);
when the throughput markers are the more numerous, `parse_stats` fails
with an index-out-of-range error instead of truncating. -/
theorem c2_pairing_safe_iff_timestamps_cover (raw : Str) :
    (∃ d, stats_dict raw = some d) ↔
      (throughput_values raw).length ≤ (timestamp_values raw).length := by
  rw [stats_dict, statsLoop_eq]
  by_cases h : (throughput_values raw).length ≤ (timestamp_values raw).length <;>
    simp [h]

/-- C4: the stats dict is built by pairing the i-th timestamp with the
i-th throughput, the timestamp becoming the key and the throughput the
value (inserted in order, index-wise zip of the two sequences); in
particular the interleaved example input yields the mapping
`{1.0 ↦ 12.5, 2.0 ↦ 15.0}` (here `⟨125, 1⟩` is `125/10¹ = 12.5`). -/
theorem c4_positional_pairing :
    (∀ raw : Str, stats_dict raw =
        if (throughput_values raw).length ≤ (timestamp_values raw).length then
          some (dictInsertAll []
            ((timestamp_values raw).zip (throughput_values raw)))
        else none) ∧
    stats_dict (str "NETPERF_INTERIM_RESULT[0]=12.5 NETPERF_ENDING[0]=1.0 NETPERF_INTERIM_RESULT[1]=15.0 NETPERF_ENDING[1]=2.0")
      = some [(⟨1, 0⟩, ⟨125, 1⟩), (⟨2, 0⟩, ⟨15, 0⟩)] :=
  ⟨fun raw => statsLoop_eq _ _ _, by decide⟩

/-- C5: a repeated timestamp appears exactly once in the stats dict,
bound to the throughput of the last-encountered pair — on the duplicate
example the result is `{1.0 ↦ 20.0}` — and in general assigning an
existing dict key overwrites its value (last write wins). -/
theorem c5_last_write_wins :
    stats_dict (str "NETPERF_INTERIM_RESULT[0]=10.0 NETPERF_ENDING[0]=1.0 NETPERF_INTERIM_RESULT[1]=20.0 NETPERF_ENDING[1]=1.0")
      = some [(⟨1, 0⟩, ⟨20, 0⟩)] ∧
    ∀ (d : List (Dec × Dec)) (k v : Dec), dictLookup (dictInsert d k v) k = some v :=
  ⟨by decide, fun d k v => dictLookup_insert_self d k v⟩

/-- C10: a marker whose numeric payload has no fractional part is not
matched at all — every match of either marker pattern carries a
digits-dot-digits payload, and the integer-payload inputs
`NETPERF_INTERIM_RESULT[0]=12` and `NETPERF_ENDING[0]=3` produce no
matches and no samples. -/
theorem c10_integer_payloads_not_matched :
    (∀ lit raw m : Str, m ∈ findAll lit raw → markerShape lit m) ∧
    findAll throughputLit (str "NETPERF_INTERIM_RESULT[0]=12") = [] ∧
    findAll timestampLit (str "NETPERF_ENDING[0]=3") = [] ∧
    stats_dict (str "NETPERF_INTERIM_RESULT[0]=12 NETPERF_ENDING[0]=3") = some [] :=
  ⟨findAll_shape, by decide, by decide, by decide⟩

/-- C10 (witness): the float-payload marker `NETPERF_ENDING[0]=1.0` is
matched, and the theorem exhibits its digits-dot-digits shape. -/
theorem c10_witness :
    str "NETPERF_ENDING[0]=1.0" ∈ findAll timestampLit (str "NETPERF_ENDING[0]=1.0") ∧
    markerShape timestampLit (str "NETPERF_ENDING[0]=1.0") :=
  ⟨by decide,
   c10_integer_payloads_not_matched.1 timestampLit (str "NETPERF_ENDING[0]=1.0")
     (str "NETPERF_ENDING[0]=1.0") (by decide)⟩

/-- C1 (code evaluated at the failing input): for a stream-TCP request
with `cong_algo = reno`, the built client command contains TWO
congestion-control flags, the default `-K cubic` followed by the
requested `-K reno` — the override writes the misspelled key
`cong_alg` instead of `cong_algo`, so the default is not replaced. -/
theorem c1_two_cong_flags_in_tcp_command :
    run_netperf_cmd (str "h1") (str "10.0.0.2") 10 ⟨str "TCP_STREAM", str "reno"⟩
      = some (str "ip netns exec h1 netperf -P 0 -4 -t TCP_STREAM -F /dev/urandom -l 10 -D -0.2 -H 10.0.0.2 -- -K cubic -k THROUGHPUT -K reno") ∧
    countSub (str "-K ")
      (str "ip netns exec h1 netperf -P 0 -4 -t TCP_STREAM -F /dev/urandom -l 10 -D -0.2 -H 10.0.0.2 -- -K cubic -k THROUGHPUT -K reno") = 2 ∧
    countSub (str "-K cubic")
      (str "ip netns exec h1 netperf -P 0 -4 -t TCP_STREAM -F /dev/urandom -l 10 -D -0.2 -H 10.0.0.2 -- -K cubic -k THROUGHPUT -K reno") = 1 ∧
    countSub (str "-K reno")
      (str "ip netns exec h1 netperf -P 0 -4 -t TCP_STREAM -F /dev/urandom -l 10 -D -0.2 -H 10.0.0.2 -- -K cubic -k THROUGHPUT -K reno") = 1 :=
  ⟨by decide, by decide, by decide, by decide⟩

/-- C3: for a test type that is neither `TCP_STREAM` nor `UDP_STREAM`,
no test-option set is selected and `run_netperf` fails while rendering
the command (the `AttributeError` on `test_options.values()`, the
configuration error of the spec): no command is returned and nothing
is executed. -/
theorem c3_unrecognized_testname_errors
    (ns dest : Str) (start rt : Nat) (kw : NetperfKwargs)
    (h1 : kw.testname ≠ str "TCP_STREAM") (h2 : kw.testname ≠ str "UDP_STREAM") :
    run_netperf_cmd ns dest rt kw = none ∧
    run_netperf_events ns dest start rt kw = none := by
  have hTCP : ¬(str "-t " ++ kw.testname = str "-t TCP_STREAM") := by
    intro h
    rw [show str "-t TCP_STREAM" = str "-t " ++ str "TCP_STREAM" from by decide] at h
    exact h1 (List.append_cancel_left h)
  have hUDP : ¬(str "-t " ++ kw.testname = str "-t UDP_STREAM") := by
    intro h
    rw [show str "-t UDP_STREAM" = str "-t " ++ str "UDP_STREAM" from by decide] at h
    exact h2 (List.append_cancel_left h)
  have hcmd : run_netperf_cmd ns dest rt kw = none := by
    simp only [run_netperf_cmd, dictLookup_insert_self, Option.some_inj]
    simp [hTCP, hUDP]
  exact ⟨hcmd, by simp only [run_netperf_events, hcmd]⟩

/-- C3 (witness): a request with test type `SCTP_RR` yields no command
and no run. -/
theorem c3_witness :
    str "SCTP_RR" ≠ str "TCP_STREAM" ∧ str "SCTP_RR" ≠ str "UDP_STREAM" ∧
    (run_netperf_cmd (str "h1") (str "10.0.0.2") 10 ⟨str "SCTP_RR", str "reno"⟩ = none ∧
     run_netperf_events (str "h1") (str "10.0.0.2") 0 10 ⟨str "SCTP_RR", str "reno"⟩ = none) :=
  ⟨by decide, by decide,
   c3_unrecognized_testname_errors (str "h1") (str "10.0.0.2") 0 10
     ⟨str "SCTP_RR", str "reno"⟩ (by decide) (by decide)⟩

/-- C7: for every recognized test type the built client command is
`ip netns exec <ns> netperf <base options> -H <peer ip> -- <test options>`
where the base options keep the default ordering and default literal
text (`-P 0`, `-4`, `-F /dev/urandom`, `-D -0.2`) and only the test
name and test length are replaced by the request's values. -/
theorem c7_command_shape (ns dest : Str) (rt : Nat) (algo : Str) :
    run_netperf_cmd ns dest rt ⟨str "TCP_STREAM", algo⟩
      = some (str "ip netns exec " ++ ns
          ++ str " netperf -P 0 -4 -t TCP_STREAM -F /dev/urandom -l " ++ natToStr rt
          ++ str " -D -0.2 -H " ++ dest
          ++ str " -- -K cubic -k THROUGHPUT -K " ++ algo) ∧
    run_netperf_cmd ns dest rt ⟨str "UDP_STREAM", algo⟩
      = some (str "ip netns exec " ++ ns
          ++ str " netperf -P 0 -4 -t UDP_STREAM -F /dev/urandom -l " ++ natToStr rt
          ++ str " -D -0.2 -H " ++ dest
          ++ str " -- -R 1 -k THROUGHPUT") := by
  constructor <;>
    simp [run_netperf_cmd, dictInsert, dictLookup, dictValues, joinSpace,
      DEFAULT_NETPERF_OPTIONS, NETPERF_TCP_OPTIONS, NETPERF_UDP_OPTIONS, str]

/-- C6: empty input — and more generally input without a single
matching marker — raises no error: the stats dict is empty and the
orchestration still completes, merging the empty contribution into the
store for the namespace. -/
theorem c6_empty_input_merges_empty :
    stats_dict (str "") = some [] ∧
    (∀ (ns : Str) (store : Store),
      parse_stats_apply (str "") ns store = some (add_result store ns [])) ∧
    (∀ (raw ns : Str) (store : Store),
      findAll throughputLit raw = [] → findAll timestampLit raw = [] →
      parse_stats_apply raw ns store = some (add_result store ns [])) := by
  have h0 : stats_dict (str "") = some [] := by decide
  refine ⟨h0, fun ns store => by simp [parse_stats_apply, h0], ?_⟩
  intro raw ns store h1 h2
  simp [parse_stats_apply, stats_dict, throughput_values, timestamp_values,
    h1, h2, statsLoop]

/-- C6 (witness): markerless raw output merges an empty sample set for
the namespace into an empty store. -/
theorem c6_witness :
    findAll throughputLit (str "netperf: no markers here") = [] ∧
    findAll timestampLit (str "netperf: no markers here") = [] ∧
    parse_stats_apply (str "netperf: no markers here") (str "h1") []
      = some (add_result [] (str "h1") []) :=
  ⟨by decide, by decide,
   c6_empty_input_merges_empty.2.2 (str "netperf: no markers here") (str "h1") []
     (by decide) (by decide)⟩

/-- C9: in every run, the orchestrator's action sequence sleeps for
`start_time` seconds before executing the command when `start_time` is
positive and does not sleep at all when it is `0`; the command is
executed blocking (`wait = true`), and the parse-and-merge step comes
strictly after the execution. -/
theorem c9_delay_then_blocking_exec
    (ns dest : Str) (start rt : Nat) (kw : NetperfKwargs) (t : List RunEvent)
    (h : run_netperf_events ns dest start rt kw = some t) :
    ∃ cmd, run_netperf_cmd ns dest rt kw = some cmd ∧
      (0 < start →
        t = [RunEvent.sleep start, RunEvent.exec cmd true, RunEvent.parseMerge ns]) ∧
      (start = 0 → t = [RunEvent.exec cmd true, RunEvent.parseMerge ns]) := by
  unfold run_netperf_events at h
  cases hc : run_netperf_cmd ns dest rt kw with
  | none => rw [hc] at h; cases h
  | some cmd =>
    rw [hc] at h
    injection h with h
    refine ⟨cmd, rfl, ?_, ?_⟩
    · intro hs
      rw [← h, if_pos (Nat.pos_iff_ne_zero.mp hs)]
      rfl
    · intro hz
      rw [← h, hz]
      rfl

/-- C9 (witness): a stream-TCP run with start delay 2 sleeps, then
executes blocking, then parses and merges. -/
theorem c9_witness :
    run_netperf_events (str "h1") (str "10.0.0.2") 2 10 ⟨str "TCP_STREAM", str "cubic"⟩
      = some [RunEvent.sleep 2,
          RunEvent.exec (str "ip netns exec h1 netperf -P 0 -4 -t TCP_STREAM -F /dev/urandom -l 10 -D -0.2 -H 10.0.0.2 -- -K cubic -k THROUGHPUT -K cubic") true,
          RunEvent.parseMerge (str "h1")] ∧
    (∃ cmd, run_netperf_cmd (str "h1") (str "10.0.0.2") 10 ⟨str "TCP_STREAM", str "cubic"⟩
        = some cmd ∧
      (0 < 2 →
        [RunEvent.sleep 2,
          RunEvent.exec (str "ip netns exec h1 netperf -P 0 -4 -t TCP_STREAM -F /dev/urandom -l 10 -D -0.2 -H 10.0.0.2 -- -K cubic -k THROUGHPUT -K cubic") true,
          RunEvent.parseMerge (str "h1")]
          = [RunEvent.sleep 2, RunEvent.exec cmd true, RunEvent.parseMerge (str "h1")]) ∧
      (2 = 0 →
        [RunEvent.sleep 2,
          RunEvent.exec (str "ip netns exec h1 netperf -P 0 -4 -t TCP_STREAM -F /dev/urandom -l 10 -D -0.2 -H 10.0.0.2 -- -K cubic -k THROUGHPUT -K cubic") true,
          RunEvent.parseMerge (str "h1")]
          = [RunEvent.exec cmd true, RunEvent.parseMerge (str "h1")])) :=
  ⟨by decide,
   c9_delay_then_blocking_exec (str "h1") (str "10.0.0.2") 2 10
     ⟨str "TCP_STREAM", str "cubic"⟩ _ (by decide)⟩

/-! ## Serialization of concurrent merges under the shared lock -/

theorem interleave_swap {xs ys t : List MergeEvent} (h : Interleave xs ys t) :
    Interleave ys xs t := by
  induction h with
  | nil => exact Interleave.nil
  | left _ ih => exact Interleave.right ih
  | right _ ih => exact Interleave.left ih

theorem interleave_nil_left : ∀ {ys t : List MergeEvent}, Interleave [] ys t → t = ys := by
  intro ys t h
  induction t generalizing ys with
  | nil => cases h; rfl
  | cons e rest ih =>
    cases h with
    | right h' => rw [ih h']

/-- Once a unit holds the lock, every feasible schedule lets it finish
its update and release before the other unit's merge block runs. -/
theorem serialize_inner (nsX nsY : Str) (dX dY : List (Dec × Dec)) (store : Store)
    (t1 : List MergeEvent)
    (h : Interleave [MergeEvent.update nsX dX, MergeEvent.release]
          [MergeEvent.acquire, MergeEvent.update nsY dY, MergeEvent.release] t1)
    (hl : lockRespecting true t1 = true) :
    applyTrace store (MergeEvent.acquire :: t1)
      = add_result (add_result store nsX dX) nsY dY := by
  cases h with
  | left h2 =>
    rename_i t2
    have hl2 : lockRespecting true t2 = true := by
      simpa only [lockRespecting] using hl
    cases h2 with
    | left h3 =>
      rw [interleave_nil_left h3]
      simp [applyTrace, applyEvent]
    | right h3 => simp [lockRespecting] at hl2
  | right h2 => simp [lockRespecting] at hl

/-- Any feasible (lock-respecting) interleaving of two merge blocks has
the same effect on the store as running the two merges one after the
other, in one of the two orders: an update never interleaves with the
other unit's merge. -/
theorem merge_serializes (nsA nsB : Str) (dA dB : List (Dec × Dec)) (store : Store)
    (t : List MergeEvent)
    (h : Interleave (mergeTrace nsA dA) (mergeTrace nsB dB) t)
    (hl : lockRespecting false t = true) :
    applyTrace store t = add_result (add_result store nsA dA) nsB dB ∨
    applyTrace store t = add_result (add_result store nsB dB) nsA dA := by
  simp only [mergeTrace] at h
  cases h with
  | left h1 =>
    rename_i t1
    have hl1 : lockRespecting true t1 = true := by
      simpa only [lockRespecting, Bool.not_false, Bool.true_and] using hl
    exact Or.inl (serialize_inner nsA nsB dA dB store t1 h1 hl1)
  | right h1 =>
    rename_i t1
    have hl1 : lockRespecting true t1 = true := by
      simpa only [lockRespecting, Bool.not_false, Bool.true_and] using hl
    exact Or.inr (serialize_inner nsB nsA dB dA store t1 (interleave_swap h1) hl1)

/-- Two sequential merges into the same namespace with key-disjoint,
key-distinct sample sets lose neither contribution. -/
theorem seq_merge_lookup (store : Store) (ns : Str) (dA dB : List (Dec × Dec))
    (k v : Dec)
    (hndA : (dA.map Prod.fst).Nodup) (hndB : (dB.map Prod.fst).Nodup)
    (hdisj : ∀ x ∈ dA.map Prod.fst, x ∉ dB.map Prod.fst)
    (hmem : (k, v) ∈ dA ∨ (k, v) ∈ dB) :
    ∃ series, dictLookup (add_result (add_result store ns dA) ns dB) ns = some series ∧
      dictLookup series k = some v := by
  have hser : dictLookup (add_result (add_result store ns dA) ns dB) ns
      = some (dictInsertAll (dictInsertAll ((dictLookup store ns).getD []) dA) dB) := by
    unfold add_result
    simp [dictLookup_insert_self]
  rcases hmem with hA | hB
  · have hk : k ∈ dA.map Prod.fst := List.mem_map_of_mem Prod.fst hA
    refine ⟨_, hser, ?_⟩
    rw [dictLookup_insertAll_not_mem _ _ _ (hdisj k hk)]
    exact dictLookup_insertAll_mem _ _ _ _ hndA hA
  · exact ⟨_, hser, dictLookup_insertAll_mem _ _ _ _ hndB hB⟩

/-- C8: the merge step of `parse_stats` performs exactly
acquire-update-release on the shared lock, so the store update sits
between the lock acquisition and the release; consequently, in every
feasible schedule of two concurrent runs the two merges serialize
(each run's update is a single atomic step), and two runs contributing
key-distinct, disjoint timestamp sets to the same namespace both land
in the final Result Series — no lost updates. -/
theorem c8_merge_lock_discipline :
    (∀ raw ns t, parse_stats_events raw ns = some t →
        ∃ d, stats_dict raw = some d ∧ t = mergeTrace ns d) ∧
    (∀ (nsA nsB : Str) (dA dB : List (Dec × Dec)) (store : Store) t,
        Interleave (mergeTrace nsA dA) (mergeTrace nsB dB) t →
        lockRespecting false t = true →
        applyTrace store t = add_result (add_result store nsA dA) nsB dB ∨
        applyTrace store t = add_result (add_result store nsB dB) nsA dA) ∧
    (∀ (ns : Str) (dA dB : List (Dec × Dec)) (store : Store) t (k v : Dec),
        Interleave (mergeTrace ns dA) (mergeTrace ns dB) t →
        lockRespecting false t = true →
        (dA.map Prod.fst).Nodup → (dB.map Prod.fst).Nodup →
        (∀ x ∈ dA.map Prod.fst, x ∉ dB.map Prod.fst) →
        ((k, v) ∈ dA ∨ (k, v) ∈ dB) →
        ∃ series, dictLookup (applyTrace store t) ns = some series ∧
          dictLookup series k = some v) := by
  refine ⟨?_, fun nsA nsB dA dB store t h hl => merge_serializes nsA nsB dA dB store t h hl, ?_⟩
  · intro raw ns t h
    unfold parse_stats_events at h
    cases hd : stats_dict raw with
    | none => rw [hd] at h; cases h
    | some d =>
      rw [hd] at h
      injection h with h
      exact ⟨d, rfl, h.symm⟩
  · intro ns dA dB store t k v h hl hndA hndB hdisj hmem
    rcases merge_serializes ns ns dA dB store t h hl with h1 | h1
    · rw [h1]
      exact seq_merge_lookup store ns dA dB k v hndA hndB hdisj hmem
    · rw [h1]
      exact seq_merge_lookup store ns dB dA k v hndB hndA
        (fun x hxB hxA => hdisj x hxA hxB) hmem.symm

/-- C8 (witness): the sequential schedule of two merges into `h1` with
disjoint singleton sample sets is feasible and keeps the first run's
sample in the final series. -/
theorem c8_witness :
    Interleave (mergeTrace (str "h1") [(⟨1, 0⟩, ⟨10, 0⟩)])
      (mergeTrace (str "h1") [(⟨2, 0⟩, ⟨20, 0⟩)])
      (mergeTrace (str "h1") [(⟨1, 0⟩, ⟨10, 0⟩)]
        ++ mergeTrace (str "h1") [(⟨2, 0⟩, ⟨20, 0⟩)]) ∧
    lockRespecting false
      (mergeTrace (str "h1") [(⟨1, 0⟩, ⟨10, 0⟩)]
        ++ mergeTrace (str "h1") [(⟨2, 0⟩, ⟨20, 0⟩)]) = true ∧
    (∃ series,
      dictLookup
        (applyTrace []
          (mergeTrace (str "h1") [(⟨1, 0⟩, ⟨10, 0⟩)]
            ++ mergeTrace (str "h1") [(⟨2, 0⟩, ⟨20, 0⟩)]))
        (str "h1") = some series ∧
      dictLookup series ⟨1, 0⟩ = some ⟨10, 0⟩) := by
  have hI : Interleave (mergeTrace (str "h1") [(⟨1, 0⟩, ⟨10, 0⟩)])
      (mergeTrace (str "h1") [(⟨2, 0⟩, ⟨20, 0⟩)])
      (mergeTrace (str "h1") [(⟨1, 0⟩, ⟨10, 0⟩)]
        ++ mergeTrace (str "h1") [(⟨2, 0⟩, ⟨20, 0⟩)]) := by
    simp only [mergeTrace, List.cons_append, List.nil_append]
    exact .left (.left (.left (.right (.right (.right .nil)))))
  exact ⟨hI, by decide,
    c8_merge_lock_discipline.2.2 (str "h1") [(⟨1, 0⟩, ⟨10, 0⟩)] [(⟨2, 0⟩, ⟨20, 0⟩)] []
      _ ⟨1, 0⟩ ⟨10, 0⟩ hI (by decide) (by decide) (by decide) (by decide)
      (Or.inl (by decide))⟩

end NestNetperf
